import Mathlib

/-!
# Verification of the Telegram AI agent conversation core

This file gives a shallow embedding, in Lean 4, of the conversation core of
the Telegram AI agent repository (config.py, utils.py, handlers.py,
tools.py) and settles the frozen specification claims about it.

Conventions of the embedding:

* Python strings are Lean String values; machine integers do not occur.
* Library behavior the source relies on is modelled explicitly:
  collections.deque with maxlen (dequeAppend), re.sub for the think-marker
  patterns (stripThink, stripThinkSp), json.JSONDecoder.raw_decode (parseF),
  ast.literal_eval restricted to the JSON-shaped strings the extractor
  produces (ast_literal_eval), and Python str.strip (pyStrip).
* Network transports are modelled as explicit environments: the model
  backend response is an OllamaOutcome value, and the Telegram edit/send
  transport is a TransportEnv giving the outcome of each edit attempt and
  the state of the 0.75 second edit throttle at each fragment.
* The references handlers.py makes to a settings object (settings.MAX_ROUNDS
  and so on) are resolved to the config constants of the same name, which is
  the evident referent of the from-config star import.
* All definitions are computable and recursion is structural (fuel-based
  where needed), so every concrete run below is evaluated by the kernel.
-/

namespace TgAgent

/-- ASCII whitespace, the fragment of Python str.strip and of the regex
class backslash-s that the repository's strings can contain. -/
def isPySpace (c : Char) : Bool :=
  c = ' ' || c = '\t' || c = '\n' || c = '\r' || c = '\x0b' || c = '\x0c'

/-- Whitespace accepted by the json decoder between tokens (space, tab,
newline, carriage return). -/
def isJsonWs (c : Char) : Bool :=
  c = ' ' || c = '\t' || c = '\n' || c = '\r'

/-- Model of Python str.strip on a string: drop whitespace from both ends. -/
def pyStrip (s : String) : String :=
  String.mk (((s.data.dropWhile isPySpace).reverse.dropWhile isPySpace).reverse)

/-- The single-quote to double-quote normalization the extractor performs,
text.replace in utils.py line 181. -/
def replaceQuotes (s : String) : String :=
  String.mk (s.data.map (fun c => if c = Char.ofNat 39 then Char.ofNat 34 else c))

/-- Index of the first occurrence of pat in l, if any. -/
def findSub? (pat : List Char) : List Char → Option Nat
  | [] => if pat.isPrefixOf ([] : List Char) then some 0 else none
  | c :: rest =>
    if pat.isPrefixOf (c :: rest) then some 0
    else (findSub? pat rest).map (· + 1)

def thinkOpen : List Char := "<think>".data

def thinkClose : List Char := "</think>".data

/-- Model of re.sub over the non-greedy pattern matching a think block:
each open marker is paired with the next close marker and the span removed;
an open marker with no later close marker matches nothing (and then no
later open marker can match either). Fuel is the input length, ample since
every removal consumes at least the two markers. -/
def stripThinkAux : Nat → List Char → List Char
  | 0, l => l
  | fuel + 1, l =>
    match findSub? thinkOpen l with
    | none => l
    | some i =>
      let after := l.drop (i + 7)
      match findSub? thinkClose after with
      | none => l
      | some j => l.take i ++ stripThinkAux fuel (after.drop (j + 8))

/-- Think-marker stripping as used in handlers.py (chat) and utils.py
(filter_stream, extract_json_from_text). -/
def stripThink (s : String) : String :=
  String.mk (stripThinkAux s.data.length s.data)

/-- Variant of think-marker stripping used by photo_or_sticker_handler,
whose pattern additionally consumes whitespace after each close marker. -/
def stripThinkSpAux : Nat → List Char → List Char
  | 0, l => l
  | fuel + 1, l =>
    match findSub? thinkOpen l with
    | none => l
    | some i =>
      let after := l.drop (i + 7)
      match findSub? thinkClose after with
      | none => l
      | some j => l.take i ++ stripThinkSpAux fuel ((after.drop (j + 8)).dropWhile isPySpace)

/-- The photo/sticker handler's reply cleaning: strip think blocks with
trailing whitespace, then strip surrounding whitespace. -/
def stripThinkSp (s : String) : String :=
  String.mk (stripThinkSpAux s.data.length s.data)

/-- Concatenation of a list of strings, the model of string accumulation
loops (full_response += chunk) in utils.py. -/
def strConcat : List String → String
  | [] => ""
  | s :: rest => s ++ strConcat rest

theorem mk_append (a b : List Char) : String.mk (a ++ b) = String.mk a ++ String.mk b := rfl

theorem strConcat_singleton (s : String) : strConcat [s] = s := by
  show s ++ "" = s
  cases s with
  | mk d => show String.mk (d ++ []) = String.mk d
            rw [List.append_nil]

theorem empty_append_str (s : String) : "" ++ s = s := by
  cases s with
  | mk d => rfl

theorem str_append_assoc (a b c : String) : a ++ b ++ c = a ++ (b ++ c) := by
  cases a with
  | mk x => cases b with
    | mk y => cases c with
      | mk z => show String.mk (x ++ y ++ z) = String.mk (x ++ (y ++ z))
                rw [List.append_assoc]

/-- The synthetic re-chunking into pieces of ten characters performed by
filter_stream in utils.py (for i in range(0, len(cleaned), 10)) and by
text_generator in handlers.py. Fuel is the input length. -/
def chunkListF : Nat → List Char → List (List Char)
  | 0, _ => []
  | _, [] => []
  | fuel + 1, c :: rest => (c :: rest).take 10 :: chunkListF fuel ((c :: rest).drop 10)

/-- The presenter-facing fragment sequence produced from a string. -/
def chunks10 (s : String) : List String :=
  (chunkListF s.data.length s.data).map String.mk

theorem chunkListF_concat :
    ∀ (n : Nat) (l : List Char), l.length ≤ n →
      strConcat ((chunkListF n l).map String.mk) = String.mk l := by
  intro n
  induction n with
  | zero =>
    intro l hl
    have hnil : l = [] := List.eq_nil_of_length_eq_zero (Nat.le_zero.mp hl)
    subst hnil
    rfl
  | succ n ih =>
    intro l hl
    cases l with
    | nil => rfl
    | cons c rest =>
      show String.mk ((c :: rest).take 10) ++
          strConcat ((chunkListF n ((c :: rest).drop 10)).map String.mk) =
          String.mk (c :: rest)
      rw [ih ((c :: rest).drop 10) (by
        rw [List.length_drop]
        simp only [List.length_cons] at hl ⊢
        omega)]
      rw [← mk_append, List.take_append_drop]

theorem chunkListF_concat_fuel (l : List Char) :
    strConcat ((chunkListF l.length l).map String.mk) = String.mk l :=
  chunkListF_concat l.length l le_rfl

/-- C8: concatenating the presenter's synthetic re-chunking of a string
reproduces the string exactly, for every string, including the empty string
and lengths not divisible by the chunk size ten. -/
theorem chunk_join_identity (s : String) : strConcat (chunks10 s) = s := by
  unfold chunks10
  rw [chunkListF_concat_fuel]

/-- One stored conversation turn entry: role and content, the model of the
dicts appended to the history deque. -/
abbrev Entry := String × String

/-- config.py line 37. -/
def MAX_ROUNDS : Nat := 12

/-- Model of appending to a collections.deque with the given maxlen: the
element goes to the right and, on overflow, the oldest (leftmost) element
is discarded. -/
def dequeAppend (maxlen : Nat) (h : List Entry) (e : Entry) : List Entry :=
  (h ++ [e]).drop (h.length + 1 - maxlen)

theorem dequeAppend_foldl (m : Nat) :
    ∀ es : List Entry, es.foldl (dequeAppend m) [] = es.drop (es.length - m) := by
  intro es
  induction es using List.reverseRecOn with
  | nil => simp
  | append_singleton es e ih =>
    rw [List.foldl_append]
    simp only [List.foldl_cons, List.foldl_nil]
    rw [ih]
    unfold dequeAppend
    rw [List.length_drop]
    have h1 : es.drop (es.length - m) ++ [e] = (es ++ [e]).drop (es.length - m) := by
      rw [List.drop_append_eq_append_drop]
      have h2 : es.length - m - es.length = 0 := by omega
      rw [h2]
      simp
    rw [h1, List.drop_drop]
    congr 1
    have hl : (es ++ [e]).length = es.length + 1 := by simp
    omega

/-- The two history appends performed at the end of a completed chat turn,
handlers.py lines 142-143: the user message then the assistant reply, on a
deque bounded by MAX_ROUNDS entries. -/
def chatHistUpdate (hist : List Entry) (userMsg finalReply : String) : List Entry :=
  dequeAppend MAX_ROUNDS (dequeAppend MAX_ROUNDS hist ("user", userMsg)) ("assistant", finalReply)

/-- The flat sequence of entries contributed by a sequence of completed
turns, two entries per turn in order. -/
def turnEntries : List (String × String) → List Entry
  | [] => []
  | t :: ts => ("user", t.1) :: ("assistant", t.2) :: turnEntries ts

/-- The history after processing the given turns from an empty history. -/
def historyAfterTurns (turns : List (String × String)) : List Entry :=
  turns.foldl (fun h t => chatHistUpdate h t.1 t.2) []

theorem historyAfterTurns_eq_foldl :
    ∀ (turns : List (String × String)) (init : List Entry),
      turns.foldl (fun h t => chatHistUpdate h t.1 t.2) init =
        (turnEntries turns).foldl (dequeAppend MAX_ROUNDS) init := by
  intro turns
  induction turns with
  | nil => intro init; rfl
  | cons t ts ih =>
    intro init
    simp only [List.foldl_cons, turnEntries]
    exact ih (chatHistUpdate init t.1 t.2)

theorem turnEntries_length (turns : List (String × String)) :
    (turnEntries turns).length = 2 * turns.length := by
  induction turns with
  | nil => rfl
  | cons t ts ih => simp only [turnEntries, List.length_cons, ih, List.length_cons]; omega

/-- C1 (amended): the history deque has capacity MAX_ROUNDS entries, so after
N turns with N greater than MAX_ROUNDS it holds exactly MAX_ROUNDS entries
(never more than MAX_ROUNDS at any point), and the entries evicted on
overflow are exactly the oldest ones, in FIFO order: what remains is
precisely the newest suffix of the appended entry sequence. -/
theorem history_bound (turns : List (String × String)) :
    (historyAfterTurns turns).length ≤ MAX_ROUNDS ∧
    (MAX_ROUNDS < turns.length →
      historyAfterTurns turns =
        (turnEntries turns).drop (2 * turns.length - MAX_ROUNDS) ∧
      (historyAfterTurns turns).length = MAX_ROUNDS) := by
  have hfold : historyAfterTurns turns =
      (turnEntries turns).drop ((turnEntries turns).length - MAX_ROUNDS) := by
    unfold historyAfterTurns
    rw [historyAfterTurns_eq_foldl, dequeAppend_foldl]
  constructor
  · rw [hfold, List.length_drop]
    omega
  · intro hN
    constructor
    · rw [hfold, turnEntries_length]
    · rw [hfold, List.length_drop, turnEntries_length]
      unfold MAX_ROUNDS at hN ⊢
      omega

/-- Thirteen concrete completed turns, one more than MAX_ROUNDS. -/
def turns13 : List (String × String) :=
  (List.range 13).map (fun i => (Nat.repr i, Nat.repr i))

/-- C1 counterexample: after thirteen turns (N greater than MAX_ROUNDS) the
history length is not 2 times MAX_ROUNDS as claimed; the deque capacity is
MAX_ROUNDS entries, so the length is 12, not 24. -/
theorem history_bound_counterexample :
    ((historyAfterTurns turns13).length == 2 * MAX_ROUNDS) = false := by decide

/-- C1 witness: the amended bound evaluated at the thirteen concrete turns. -/
theorem history_bound_witness :
    MAX_ROUNDS < turns13.length ∧
    historyAfterTurns turns13 =
      (turnEntries turns13).drop (2 * turns13.length - MAX_ROUNDS) ∧
    (historyAfterTurns turns13).length = MAX_ROUNDS :=
  ⟨by decide, ((history_bound turns13).2 (by decide)).1, ((history_bound turns13).2 (by decide)).2⟩

/-! ## The json decoder model

json.JSONDecoder.raw_decode as used by extract_json_from_text: a strict
JSON value parser returning the decoded value and the exact number of
characters consumed.  Recursion is fuel-based (structural) so the kernel
can evaluate it; the fuel bounds the call-chain depth, which for this
grammar is at most twice the input length. -/

/-- A decoded JSON value.  Numbers keep their lexeme; the non-finite
constants NaN, Infinity and -Infinity accepted by Python json are kept
apart because ast.literal_eval rejects them. -/
inductive JsonVal where
  | null
  | bool (b : Bool)
  | num (lexeme : String)
  | nonfinite (lexeme : String)
  | str (s : String)
  | arr (elems : List JsonVal)
  | obj (pairs : List (String × JsonVal))

def hexDigit? (c : Char) : Option Nat :=
  if '0' ≤ c ∧ c ≤ '9' then some (c.toNat - 48)
  else if 'a' ≤ c ∧ c ≤ 'f' then some (c.toNat - 87)
  else if 'A' ≤ c ∧ c ≤ 'F' then some (c.toNat - 55)
  else none

def hex4? : List Char → Option (Nat × List Char)
  | a :: b :: c :: d :: rest =>
    match hexDigit? a, hexDigit? b, hexDigit? c, hexDigit? d with
    | some x1, some x2, some x3, some x4 =>
      some (((x1 * 16 + x2) * 16 + x3) * 16 + x4, rest)
    | _, _, _, _ => none
  | _ => none

def escChar? (e : Char) : Option Char :=
  if e = '\"' then some '\"'
  else if e = '\\' then some '\\'
  else if e = '/' then some '/'
  else if e = 'b' then some (Char.ofNat 8)
  else if e = 'f' then some (Char.ofNat 12)
  else if e = 'n' then some '\n'
  else if e = 'r' then some '\r'
  else if e = 't' then some '\t'
  else none

/-- Model of json scanner.py scanstring in strict mode, positioned right
after the opening quote: returns the decoded string and the count of
characters consumed including the closing quote.  Surrogate pairs are
combined; a lone surrogate keeps its consumed span (Python keeps the lone
surrogate character, which Lean's Char cannot represent, so its character
value is approximated while every span and every ASCII string round-trips
exactly). -/
def parseStringBody : Nat → List Char → Option (String × Nat)
  | 0, _ => none
  | _, [] => none
  | fuel + 1, c :: rest =>
    if c = '\"' then some ("", 1)
    else if c = '\\' then
      match rest with
      | [] => none
      | e :: rest2 =>
        if e = 'u' then
          match hex4? rest2 with
          | none => none
          | some (code, rest3) =>
            if 0xD800 ≤ code ∧ code ≤ 0xDBFF then
              match rest3 with
              | '\\' :: 'u' :: rk =>
                match hex4? rk with
                | none => none
                | some (code2, rest4) =>
                  if 0xDC00 ≤ code2 ∧ code2 ≤ 0xDFFF then
                    match parseStringBody fuel rest4 with
                    | some (s, n) =>
                      some (String.mk (Char.ofNat
                        (0x10000 + (code - 0xD800) * 0x400 + (code2 - 0xDC00)) :: s.data), n + 12)
                    | none => none
                  else
                    match parseStringBody fuel rest3 with
                    | some (s, n) => some (String.mk (Char.ofNat code :: s.data), n + 6)
                    | none => none
              | _ =>
                match parseStringBody fuel rest3 with
                | some (s, n) => some (String.mk (Char.ofNat code :: s.data), n + 6)
                | none => none
            else
              match parseStringBody fuel rest3 with
              | some (s, n) => some (String.mk (Char.ofNat code :: s.data), n + 6)
              | none => none
        else
          match escChar? e with
          | some ch =>
            match parseStringBody fuel rest2 with
            | some (s, n) => some (String.mk (ch :: s.data), n + 2)
            | none => none
          | none => none
    else if c.toNat < 32 then none
    else
      match parseStringBody fuel rest with
      | some (s, n) => some (String.mk (c :: s.data), n + 1)
      | none => none

def parseIntDigits : List Char → Option (List Char × List Char)
  | [] => none
  | c :: rest =>
    if c = '0' then some ([c], rest)
    else if '1' ≤ c ∧ c ≤ '9' then
      some (c :: rest.takeWhile Char.isDigit, rest.dropWhile Char.isDigit)
    else none

def parseFracPart : List Char → List Char × List Char
  | '.' :: rest =>
    let ds := rest.takeWhile Char.isDigit
    if ds.isEmpty then ([], '.' :: rest)
    else ('.' :: ds, rest.dropWhile Char.isDigit)
  | l => ([], l)

def parseExpPart : List Char → List Char × List Char
  | c :: rest =>
    if c = 'e' ∨ c = 'E' then
      match rest with
      | s :: rest2 =>
        if s = '+' ∨ s = '-' then
          let ds := rest2.takeWhile Char.isDigit
          if ds.isEmpty then ([], c :: s :: rest2)
          else (c :: s :: ds, rest2.dropWhile Char.isDigit)
        else
          let ds := rest.takeWhile Char.isDigit
          if ds.isEmpty then ([], c :: rest)
          else (c :: ds, rest.dropWhile Char.isDigit)
      | [] => ([], [c])
    else ([], c :: rest)
  | [] => ([], [])

/-- Model of the json NUMBER_RE maximal match: an optional minus, an
integer part with no leading zeros, then optional fraction and exponent
groups, each taken only when complete. -/
def parseNumber (l : List Char) : Option (String × Nat) :=
  let (neg, l1) := match l with
    | '-' :: rest => (true, rest)
    | _ => (false, l)
  match parseIntDigits l1 with
  | none => none
  | some (ip, l2) =>
    let (fp, l3) := parseFracPart l2
    let (ep, _) := parseExpPart l3
    let lex := (if neg then ['-'] else []) ++ ip ++ fp ++ ep
    some (String.mk lex, lex.length)

def countWs (l : List Char) : Nat := (l.takeWhile isJsonWs).length

/-- Parser mode: a full value, the items of a non-empty array after the
opening bracket and leading whitespace, or the members of a non-empty
object after the opening brace and leading whitespace. -/
inductive PMode | value | arrItems | objItems

/-- Model of json scan_once (mode value) together with the member loops of
JSONObject and JSONArray (the other two modes).  Array items are carried
in an arr value and object members in an obj value; the returned count is
the number of characters consumed from the given position, including the
closing bracket in the item modes. -/
def parseF : Nat → PMode → List Char → Option (JsonVal × Nat)
  | 0, _, _ => none
  | fuel + 1, .value, l =>
    match l with
    | [] => none
    | c :: rest =>
      if c = '\"' then
        match parseStringBody (rest.length + 1) rest with
        | some (s, n) => some (.str s, n + 1)
        | none => none
      else if c = '\x7b' then
        let w := countWs rest
        let r1 := rest.drop w
        match r1 with
        | '\x7d' :: _ => some (.obj [], 1 + w + 1)
        | _ =>
          match parseF fuel .objItems r1 with
          | some (.obj kvs, n) => some (.obj kvs, 1 + w + n)
          | _ => none
      else if c = '[' then
        let w := countWs rest
        let r1 := rest.drop w
        match r1 with
        | ']' :: _ => some (.arr [], 1 + w + 1)
        | _ =>
          match parseF fuel .arrItems r1 with
          | some (.arr vs, n) => some (.arr vs, 1 + w + n)
          | _ => none
      else if "null".data.isPrefixOf l then some (.null, 4)
      else if "true".data.isPrefixOf l then some (.bool true, 4)
      else if "false".data.isPrefixOf l then some (.bool false, 5)
      else
        match parseNumber l with
        | some (lex, n) => some (.num lex, n)
        | none =>
          if "NaN".data.isPrefixOf l then some (.nonfinite "NaN", 3)
          else if "Infinity".data.isPrefixOf l then some (.nonfinite "Infinity", 8)
          else if "-Infinity".data.isPrefixOf l then some (.nonfinite "-Infinity", 9)
          else none
  | fuel + 1, .arrItems, l =>
    match parseF fuel .value l with
    | some (v, n) =>
      let l1 := l.drop n
      let w := countWs l1
      let l2 := l1.drop w
      match l2 with
      | ']' :: _ => some (.arr [v], n + w + 1)
      | ',' :: r =>
        let w2 := countWs r
        match parseF fuel .arrItems (r.drop w2) with
        | some (.arr vs, n2) => some (.arr (v :: vs), n + w + 1 + w2 + n2)
        | _ => none
      | _ => none
    | none => none
  | fuel + 1, .objItems, l =>
    match l with
    | '\"' :: rest =>
      match parseStringBody (rest.length + 1) rest with
      | none => none
      | some (k, kn) =>
        let l1 := rest.drop kn
        let w1 := countWs l1
        let l2 := l1.drop w1
        match l2 with
        | ':' :: r =>
          let w2 := countWs r
          let r2 := r.drop w2
          match parseF fuel .value r2 with
          | none => none
          | some (v, vn) =>
            let l3 := r2.drop vn
            let w3 := countWs l3
            let l4 := l3.drop w3
            match l4 with
            | '\x7d' :: _ => some (.obj [(k, v)], 1 + kn + w1 + 1 + w2 + vn + w3 + 1)
            | ',' :: r3 =>
              let w4 := countWs r3
              match parseF fuel .objItems (r3.drop w4) with
              | some (.obj kvs, n2) =>
                some (.obj ((k, v) :: kvs), 1 + kn + w1 + 1 + w2 + vn + w3 + 1 + w4 + n2)
              | _ => none
            | _ => none
        | _ => none
    | _ => none

/-- Ample fuel for decoding a value of the given input: the parser's call
chains advance at least one character every two calls. -/
def jsonFuel (l : List Char) : Nat := 2 * l.length + 8

/-- json.JSONDecoder().raw_decode at a given position: the decoded value
and the number of characters consumed. -/
def raw_decode (l : List Char) : Option (JsonVal × Nat) :=
  parseF (jsonFuel l) .value l

/-! ## The response extractor, utils.py lines 174-206 -/

/-- The left-to-right scan of extract_json_from_text: at a character that
opens an object or array, attempt a raw decode; on success record the
exact decoded span and continue past it, on failure advance one
character. -/
def scanAux : Nat → List Char → List String
  | 0, _ => []
  | _, [] => []
  | fuel + 1, c :: rest =>
    if c = '\x7b' ∨ c = '[' then
      match raw_decode (c :: rest) with
      | some (_, n) =>
        if 0 < n then
          String.mk ((c :: rest).take n) :: scanAux fuel ((c :: rest).drop n)
        else scanAux fuel rest
      | none => scanAux fuel rest
    else scanAux fuel rest

/-- The preprocessing of the extractor: strip think sections, then
normalize single quotes to double quotes. -/
def prepText (text : String) : String := replaceQuotes (stripThink text)

/-- All decodable top-level fragments of the preprocessed text, in order
of appearance. -/
def jsonSlices (text : String) : List String :=
  scanAux (prepText text).data.length (prepText text).data

/-- utils.py extract_json_from_text: no fragment yields none, a single
fragment is returned verbatim, several fragments are joined into one
array literal in discovery order. -/
def extract_json_from_text (text : String) : Option String :=
  match jsonSlices text with
  | [] => none
  | [s] => some s
  | s1 :: s2 :: ss => some ("[" ++ String.intercalate "," (s1 :: s2 :: ss) ++ "]")

/-- The recovered slices decompose the scanned text from left to right:
each slice is the exact span of a successful raw decode at its position,
and the next slices live strictly after it. -/
def SliceDecomp : List Char → List String → Prop
  | _, [] => True
  | l, s :: ss =>
    ∃ pre l2 v n, l = pre ++ l2 ∧ raw_decode l2 = some (v, n) ∧ 0 < n ∧
      s.data = l2.take n ∧ SliceDecomp (l2.drop n) ss

theorem sliceDecomp_cons (a : Char) (l : List Char) (ss : List String)
    (h : SliceDecomp l ss) : SliceDecomp (a :: l) ss := by
  cases ss with
  | nil => trivial
  | cons s ss =>
    obtain ⟨pre, l2, v, n, hl, hd, hn, hs, hrec⟩ := h
    exact ⟨a :: pre, l2, v, n, by rw [hl]; rfl, hd, hn, hs, hrec⟩

theorem scanAux_decomp : ∀ (fuel : Nat) (l : List Char), SliceDecomp l (scanAux fuel l) := by
  intro fuel
  induction fuel with
  | zero =>
    intro l
    simp only [scanAux]
    trivial
  | succ fuel ih =>
    intro l
    cases l with
    | nil =>
      simp only [scanAux]
      trivial
    | cons c rest =>
      simp only [scanAux]
      by_cases hb : c = '\x7b' ∨ c = '['
      · rw [if_pos hb]
        cases hd : raw_decode (c :: rest) with
        | none => exact sliceDecomp_cons c rest _ (ih rest)
        | some vn =>
          obtain ⟨v, n⟩ := vn
          show SliceDecomp (c :: rest)
            (if 0 < n then
              String.mk ((c :: rest).take n) :: scanAux fuel ((c :: rest).drop n)
            else scanAux fuel rest)
          by_cases hn : 0 < n
          · rw [if_pos hn]
            exact ⟨[], c :: rest, v, n, rfl, hd, hn, rfl, ih ((c :: rest).drop n)⟩
          · rw [if_neg hn]
            exact sliceDecomp_cons c rest _ (ih rest)
      · rw [if_neg hb]
        exact sliceDecomp_cons c rest _ (ih rest)

/-- C4: the extractor strips think sections, scans the (quote-normalized)
text left to right collecting every decodable top-level object or array
fragment in order of appearance, and returns none for zero fragments, the
single fragment verbatim for one, and one array literal joining the
fragments in discovery order for several.  Totality of the Lean function
reflects that the Python function catches every decode error and never
raises to its caller. -/
theorem extractor_shape (text : String) :
    SliceDecomp (prepText text).data (jsonSlices text) ∧
    (jsonSlices text = [] → extract_json_from_text text = none) ∧
    (∀ s, jsonSlices text = [s] → extract_json_from_text text = some s) ∧
    (∀ s1 s2 ss, jsonSlices text = s1 :: s2 :: ss →
      extract_json_from_text text =
        some ("[" ++ String.intercalate "," (s1 :: s2 :: ss) ++ "]")) := by
  refine ⟨scanAux_decomp _ _, ?_, ?_, ?_⟩
  · intro h; unfold extract_json_from_text; rw [h]
  · intro s h; unfold extract_json_from_text; rw [h]
  · intro s1 s2 ss h; unfold extract_json_from_text; rw [h]

def exText : String := "a \x7b\"x\": 1\x7d b [2]"

/-- C4 witness: a concrete text holding two decodable fragments, on which
the extractor returns the synthesized array literal. -/
theorem extractor_shape_witness :
    jsonSlices exText = ["\x7b\"x\": 1\x7d", "[2]"] ∧
    extract_json_from_text exText =
      some ("[" ++ String.intercalate "," ["\x7b\"x\": 1\x7d", "[2]"] ++ "]") :=
  ⟨by decide, (extractor_shape exText).2.2.2 _ _ _ (by decide)⟩

/-! ## ast.literal_eval on extractor output, handlers.py line 43 -/

/-- Worklist search for the JSON-only literals that make ast.literal_eval
fail: true, false, null and the non-finite constants.  Fuel bounds the
number of nodes, which is at most the source length. -/
def jvForbiddenList : Nat → List JsonVal → Bool
  | 0, _ => false
  | _, [] => false
  | fuel + 1, v :: rest =>
    match v with
    | .null => true
    | .bool _ => true
    | .nonfinite _ => true
    | .num _ => jvForbiddenList fuel rest
    | .str _ => jvForbiddenList fuel rest
    | .arr l => jvForbiddenList fuel (l ++ rest)
    | .obj kvs => jvForbiddenList fuel (kvs.map Prod.snd ++ rest)

/-- Model of ast.literal_eval as applied in handlers.py to the JSON-shaped
strings the extractor returns: such a string is a valid Python literal
exactly when it decodes as JSON and contains none of the JSON-only
literals true, false, null, NaN, Infinity, -Infinity; surrounding
whitespace is tolerated.  (The second quote replacement performed by the
handler before this call is the identity here, since extractor output
contains no single quotes.) -/
def ast_literal_eval (s : String) : Option JsonVal :=
  match parseF (jsonFuel (s.data.dropWhile isPySpace)) .value (s.data.dropWhile isPySpace) with
  | some (v, n) =>
    if ((s.data.dropWhile isPySpace).drop n).all isPySpace &&
        !jvForbiddenList (s.data.length + 1) [v] then
      some v
    else none
  | none => none

/-! ## Tool registry and dispatch, tools.py and handlers.py lines 61-88 -/

/-- Whether a registered tool callable is a coroutine function
(asyncio.iscoroutinefunction in handlers.py line 72). -/
inductive ToolKind | sync | async
deriving DecidableEq

/-- tools.py TOOL_REGISTRY: the seven registered tools; only
get_current_weather is an async def. -/
def TOOL_REGISTRY : String → Option ToolKind := fun name =>
  if name = "get_current_time" then some ToolKind.sync
  else if name = "get_current_weather" then some ToolKind.async
  else if name = "search_web" then some ToolKind.sync
  else if name = "get_news_headlines" then some ToolKind.sync
  else if name = "add_todo" then some ToolKind.sync
  else if name = "list_todos" then some ToolKind.sync
  else if name = "recommend_music" then some ToolKind.sync
  else none

/-- Python dict lookup on decoded object pairs: with duplicate keys the
later value wins, as json object decoding builds a dict. -/
def objGetLast : List (String × JsonVal) → String → Option JsonVal
  | [], _ => none
  | (k2, v) :: rest, k =>
    match objGetLast rest k with
    | some r => some r
    | none => if k2 = k then some v else none

/-- The per-call validation predicate of handlers.py line 54: the call is
a dict containing the tool-name key. -/
def hasToolName : JsonVal → Bool
  | JsonVal.obj kvs => kvs.any (fun p => p.1 == "tool_name")
  | _ => false

/-- The registry lookup performed by the dispatch loop on a call:
call.get of the tool-name key, then membership in TOOL_REGISTRY.  A
missing key or a non-string name is not in the registry. -/
def regKind (c : JsonVal) : Option ToolKind :=
  match c with
  | JsonVal.obj kvs =>
    match objGetLast kvs "tool_name" with
    | some (JsonVal.str s) => TOOL_REGISTRY s
    | _ => none
  | _ => none

def isSyncCall (c : JsonVal) : Bool :=
  match regKind c with
  | some ToolKind.sync => true
  | _ => false

def isAsyncCall (c : JsonVal) : Bool :=
  match regKind c with
  | some ToolKind.async => true
  | _ => false

/-- The dispatch loop of handlers.py lines 61-83: scanning the calls in
order, unregistered names are dropped, synchronous tools execute at once
and append their result, asynchronous tools are queued together with their
call.  The result identifies each ToolResult by its originating call; the
tool's output value is an external effect outside the embedding, and the
per-tool context injections (ctx, the default city) do not affect which
results are produced or their order. -/
def dispatchLoop : List JsonVal → List JsonVal × List JsonVal
  | [] => ([], [])
  | c :: rest =>
    let r := dispatchLoop rest
    match regKind c with
    | none => r
    | some ToolKind.sync => (c :: r.1, r.2)
    | some ToolKind.async => (r.1, c :: r.2)

/-- handlers.py lines 84-88: after the loop, the gathered async results
are appended to the sync results in original call order. -/
def dispatch (calls : List JsonVal) : List JsonVal :=
  (dispatchLoop calls).1 ++ (dispatchLoop calls).2

theorem dispatchLoop_eq (calls : List JsonVal) :
    dispatchLoop calls = (calls.filter isSyncCall, calls.filter isAsyncCall) := by
  induction calls with
  | nil => rfl
  | cons c rest ih =>
    simp only [dispatchLoop, ih, List.filter_cons]
    cases hk : regKind c with
    | none => simp [isSyncCall, isAsyncCall, hk]
    | some k =>
      cases k
      · simp [isSyncCall, isAsyncCall, hk]
      · simp [isSyncCall, isAsyncCall, hk]

theorem dispatchLoop_length (calls : List JsonVal)
    (h : ∀ c ∈ calls, (regKind c).isSome = true) :
    (dispatchLoop calls).1.length + (dispatchLoop calls).2.length = calls.length := by
  induction calls with
  | nil => rfl
  | cons c rest ih =>
    have hc := h c (List.mem_cons_self _ _)
    have hr := ih (fun x hx => h x (List.mem_cons_of_mem _ hx))
    simp only [dispatchLoop]
    cases hk : regKind c with
    | none => rw [hk] at hc; simp at hc
    | some k =>
      cases k
      · simp only [List.length_cons, List.length_cons]
        omega
      · simp only [List.length_cons, List.length_cons]
        omega

/-- C3: for a sequence of recognized tool calls, dispatch produces exactly
one result per registered call, ordered with every synchronous-tool result
first in encounter order, followed by the asynchronous-tool results in
original call order; names absent from the registry contribute no result
(they appear in neither filter). -/
theorem dispatch_order (calls : List JsonVal)
    (h : ∀ c ∈ calls, (regKind c).isSome = true) :
    dispatch calls = calls.filter isSyncCall ++ calls.filter isAsyncCall ∧
    (dispatch calls).length = calls.length := by
  constructor
  · unfold dispatch
    rw [dispatchLoop_eq]
  · unfold dispatch
    rw [List.length_append]
    exact dispatchLoop_length calls h

def wTime : JsonVal := JsonVal.obj [("tool_name", JsonVal.str "get_current_time")]

def wWeather : JsonVal := JsonVal.obj [("tool_name", JsonVal.str "get_current_weather")]

def wSearch : JsonVal := JsonVal.obj [("tool_name", JsonVal.str "search_web")]

/-- C3 witness: two sync calls around one async call dispatch to the two
sync results in order followed by the async result. -/
theorem dispatch_order_witness :
    (∀ c ∈ [wTime, wWeather, wSearch], (regKind c).isSome = true) ∧
    dispatch [wTime, wWeather, wSearch] = [wTime, wSearch, wWeather] ∧
    (dispatch [wTime, wWeather, wSearch]).length = 3 := by
  have h : ∀ c ∈ [wTime, wWeather, wSearch], (regKind c).isSome = true := by decide
  refine ⟨h, ?_, (dispatch_order _ h).2⟩
  rw [(dispatch_order _ h).1]
  rfl

/-! ## Streaming presenter, utils.py stream_and_edit_message lines 80-132 -/

/-- Outcome of one edit_message_text attempt: success, the BadRequest
whose text contains Message is not modified, or any other BadRequest or
Forbidden error. -/
inductive EditRes | ok | notModified | failed
deriving DecidableEq

/-- The transport environment of one presenter run: whether the 0.75
second throttle gate is open when the fragment with the given index is
processed, the outcome of the edit attempt with the given sequence
number, and whether the initial placeholder send succeeds. -/
structure TransportEnv where
  gates : Nat → Bool
  edits : Nat → EditRes
  initialSendOk : Bool

/-- The fragment loop of stream_and_edit_message: accumulate each chunk
into the buffer; when the gate is open and the buffer non-empty, attempt
an edit; a failed edit (neither success nor not-modified) raises to the
outer handler and abandons the rest of the sequence.  Returns the buffer,
the number of edit attempts, and whether the loop was aborted. -/
def presLoop (env : TransportEnv) : List String → Nat → Nat → String → String × Nat × Bool
  | [], _, a, buf => (buf, a, false)
  | ch :: cs, i, a, buf =>
    let buf2 := buf ++ ch
    if env.gates i ∧ buf2 ≠ "" then
      match env.edits a with
      | EditRes.failed => (buf2, a + 1, true)
      | _ => presLoop env cs (i + 1) (a + 1) buf2
    else presLoop env cs (i + 1) a buf2

/-- Observable outcome of one presenter run: the returned text (the value
handed to the orchestrator for history), the remediation message sent via
reply_safely if any, the number of edit attempts, and which failure path
was taken. -/
structure PresOut where
  returned : String
  freshSend : Option String
  editAttempts : Nat
  midAborted : Bool
  finalEditFailed : Bool
  initialFailed : Bool

/-- utils.py stream_and_edit_message.  After the loop, full_response is
assigned from the buffer and one final edit is attempted when the visible
placeholder text differs from it; the final edit is not wrapped by the
not-modified filter, so any of its failures reaches the outer handler.
The remediation reply_safely send happens only when edit_success is false
and full_response is non-empty; on a mid-loop abort full_response was
never assigned, so no remediation is sent and the return value falls back
to the buffer. -/
def stream_and_edit_message (env : TransportEnv) (chunks : List String) : PresOut :=
  if env.initialSendOk = false then ⟨"", none, 0, false, false, true⟩
  else
    let r := presLoop env chunks 0 0 ""
    let buf := r.1
    let a := r.2.1
    if r.2.2 then ⟨buf, none, a, true, false, false⟩
    else if buf ≠ "..." then
      match env.edits a with
      | EditRes.ok => ⟨buf, none, a + 1, false, false, false⟩
      | _ => ⟨buf, if buf = "" then none else some buf, a + 1, false, true, false⟩
    else ⟨buf, none, a, false, false, false⟩

theorem str_append_empty (s : String) : s ++ "" = s := by
  cases s with
  | mk d =>
    show String.mk (d ++ []) = String.mk d
    rw [List.append_nil]

theorem presLoop_false (env : TransportEnv) :
    ∀ (cs : List String) (i a : Nat) (buf : String),
      (presLoop env cs i a buf).2.2 = false →
      (presLoop env cs i a buf).1 = buf ++ strConcat cs := by
  intro cs
  induction cs with
  | nil =>
    intro i a buf _
    show buf = buf ++ ""
    rw [str_append_empty]
  | cons ch cs ih =>
    intro i a buf hnf
    revert hnf
    simp only [presLoop]
    by_cases hg : env.gates i ∧ buf ++ ch ≠ ""
    · rw [if_pos hg]
      cases he : env.edits a
      · intro hfalse
        rw [ih (i + 1) (a + 1) (buf ++ ch) hfalse]
        rw [str_append_assoc]
        rfl
      · intro hfalse
        rw [ih (i + 1) (a + 1) (buf ++ ch) hfalse]
        rw [str_append_assoc]
        rfl
      · intro hfalse
        simp at hfalse
    · rw [if_neg hg]
      intro hfalse
      rw [ih (i + 1) a (buf ++ ch) hfalse]
      rw [str_append_assoc]
      rfl

theorem presLoop_true (env : TransportEnv) :
    ∀ (cs : List String) (i a : Nat) (buf : String),
      (presLoop env cs i a buf).2.2 = true →
      ∃ k, (presLoop env cs i a buf).1 = buf ++ strConcat (cs.take k) := by
  intro cs
  induction cs with
  | nil =>
    intro i a buf h
    simp only [presLoop] at h
    exact absurd h (by decide)
  | cons ch cs ih =>
    intro i a buf hnt
    revert hnt
    simp only [presLoop]
    by_cases hg : env.gates i ∧ buf ++ ch ≠ ""
    · rw [if_pos hg]
      cases he : env.edits a
      · intro ht
        obtain ⟨k, hk⟩ := ih (i + 1) (a + 1) (buf ++ ch) ht
        refine ⟨k + 1, ?_⟩
        rw [hk, str_append_assoc]
        rfl
      · intro ht
        obtain ⟨k, hk⟩ := ih (i + 1) (a + 1) (buf ++ ch) ht
        refine ⟨k + 1, ?_⟩
        rw [hk, str_append_assoc]
        rfl
      · intro _
        refine ⟨1, ?_⟩
        show buf ++ ch = buf ++ strConcat [ch]
        rw [strConcat_singleton]
    · rw [if_neg hg]
      intro ht
      obtain ⟨k, hk⟩ := ih (i + 1) a (buf ++ ch) ht
      refine ⟨k + 1, ?_⟩
      rw [hk, str_append_assoc]
      rfl

/-- C2 (amended): after any edit attempt fails with a transport error
other than the not-modified case, no further edits are attempted; but a
remediation fresh message carrying the full accumulated text is sent only
when the failing edit is the final post-stream edit (with a non-empty
accumulated text).  When the failure happens mid-stream, no fresh message
is sent and the value returned for history is the concatenation of only
the fragments consumed so far; when no mid-stream edit fails, the full
assembled text is returned. -/
theorem presenter_edit_failure (env : TransportEnv) (chunks : List String)
    (hsend : env.initialSendOk = true) :
    ((stream_and_edit_message env chunks).midAborted = true →
      (stream_and_edit_message env chunks).freshSend = none ∧
      ∃ k, (stream_and_edit_message env chunks).returned = strConcat (chunks.take k)) ∧
    ((stream_and_edit_message env chunks).midAborted = false →
      (stream_and_edit_message env chunks).returned = strConcat chunks ∧
      ((stream_and_edit_message env chunks).finalEditFailed = true →
        strConcat chunks ≠ "" →
        (stream_and_edit_message env chunks).freshSend = some (strConcat chunks))) := by
  unfold stream_and_edit_message
  rw [hsend]
  simp only [Bool.true_eq_false, if_false]
  by_cases hab : (presLoop env chunks 0 0 "").2.2 = true
  · rw [if_pos hab]
    constructor
    · intro _
      refine ⟨rfl, ?_⟩
      obtain ⟨k, hk⟩ := presLoop_true env chunks 0 0 "" hab
      refine ⟨k, ?_⟩
      show (presLoop env chunks 0 0 "").1 = strConcat (chunks.take k)
      rw [hk, empty_append_str]
    · intro hcontr
      simp at hcontr
  · rw [if_neg hab]
    have hfalse : (presLoop env chunks 0 0 "").2.2 = false := by
      cases h : (presLoop env chunks 0 0 "").2.2 with
      | false => rfl
      | true => exact absurd h hab
    have hbuf : (presLoop env chunks 0 0 "").1 = strConcat chunks := by
      rw [presLoop_false env chunks 0 0 "" hfalse, empty_append_str]
    by_cases hdot : (presLoop env chunks 0 0 "").1 ≠ "..."
    · rw [if_pos hdot]
      cases he : env.edits (presLoop env chunks 0 0 "").2.1
      · constructor
        · intro hcontr
          simp at hcontr
        · intro _
          refine ⟨hbuf, ?_⟩
          intro hcontr
          simp at hcontr
      · constructor
        · intro hcontr
          simp at hcontr
        · intro _
          refine ⟨hbuf, ?_⟩
          intro _ hne
          have hb2 : (presLoop env chunks 0 0 "").1 ≠ "" := by rw [hbuf]; exact hne
          show (if (presLoop env chunks 0 0 "").1 = "" then none
            else some (presLoop env chunks 0 0 "").1) = some (strConcat chunks)
          rw [if_neg hb2, hbuf]
      · constructor
        · intro hcontr
          simp at hcontr
        · intro _
          refine ⟨hbuf, ?_⟩
          intro _ hne
          have hb2 : (presLoop env chunks 0 0 "").1 ≠ "" := by rw [hbuf]; exact hne
          show (if (presLoop env chunks 0 0 "").1 = "" then none
            else some (presLoop env chunks 0 0 "").1) = some (strConcat chunks)
          rw [if_neg hb2, hbuf]
    · rw [if_neg hdot]
      constructor
      · intro hcontr
        simp at hcontr
      · intro _
        refine ⟨hbuf, ?_⟩
        intro hcontr
        simp at hcontr

/-- A transport where the throttle gate is always open and every edit
fails. -/
def failEnv : TransportEnv := ⟨fun _ => true, fun _ => EditRes.failed, true⟩

/-- C2 counterexample: the first mid-stream edit fails with a transport
error other than not-modified, yet no fresh message is sent; the claimed
remediation send does not happen because full_response is assigned only
after the loop, so the accumulated text reaches the user only through the
return value. -/
theorem presenter_edit_failure_counterexample :
    (stream_and_edit_message failEnv ["hello"]).editAttempts = 1 ∧
    (stream_and_edit_message failEnv ["hello"]).midAborted = true ∧
    (stream_and_edit_message failEnv ["hello"]).freshSend = none ∧
    (stream_and_edit_message failEnv ["hello"]).returned = "hello" := by
  refine ⟨rfl, rfl, rfl, rfl⟩

/-- A transport where no mid-stream edit is attempted (gate closed) and
the final post-stream edit fails. -/
def finalFailEnv : TransportEnv := ⟨fun _ => false, fun _ => EditRes.failed, true⟩

/-- C2 witness: with the failure at the final post-stream edit, the
remediation fresh message carries the full accumulated text. -/
theorem presenter_edit_failure_witness :
    finalFailEnv.initialSendOk = true ∧
    ((stream_and_edit_message finalFailEnv ["hi"]).midAborted = false →
      (stream_and_edit_message finalFailEnv ["hi"]).returned = strConcat ["hi"] ∧
      ((stream_and_edit_message finalFailEnv ["hi"]).finalEditFailed = true →
        strConcat ["hi"] ≠ "" →
        (stream_and_edit_message finalFailEnv ["hi"]).freshSend = some (strConcat ["hi"]))) :=
  ⟨rfl, (presenter_edit_failure finalFailEnv ["hi"] rfl).2⟩

theorem presLoop_no_fail (env : TransportEnv) (hok : ∀ n, env.edits n ≠ EditRes.failed) :
    ∀ (cs : List String) (i a : Nat) (buf : String),
      (presLoop env cs i a buf).2.2 = false := by
  intro cs
  induction cs with
  | nil => intro i a buf; rfl
  | cons ch cs ih =>
    intro i a buf
    simp only [presLoop]
    by_cases hg : env.gates i ∧ buf ++ ch ≠ ""
    · rw [if_pos hg]
      cases he : env.edits a
      · exact ih (i + 1) (a + 1) (buf ++ ch)
      · exact ih (i + 1) (a + 1) (buf ++ ch)
      · exact absurd he (hok a)
    · rw [if_neg hg]
      exact ih (i + 1) a (buf ++ ch)

/-- When no edit attempt fails, the presenter returns the full assembled
text. -/
theorem presenter_ok_returns (env : TransportEnv) (hsend : env.initialSendOk = true)
    (hok : ∀ n, env.edits n ≠ EditRes.failed) (chunks : List String) :
    (stream_and_edit_message env chunks).returned = strConcat chunks := by
  unfold stream_and_edit_message
  rw [hsend]
  simp only [Bool.true_eq_false, if_false]
  have hfalse := presLoop_no_fail env hok chunks 0 0 ""
  rw [hfalse]
  simp only [Bool.false_eq_true, if_false]
  have hbuf : (presLoop env chunks 0 0 "").1 = strConcat chunks := by
    rw [presLoop_false env chunks 0 0 "" hfalse, empty_append_str]
  by_cases hdot : (presLoop env chunks 0 0 "").1 ≠ "..."
  · rw [if_pos hdot]
    cases he : env.edits (presLoop env chunks 0 0 "").2.1
    · exact hbuf
    · exact hbuf
    · exact hbuf
  · rw [if_neg hdot]
    exact hbuf

/-- The chunk-then-join identity, kept as a helper for the orchestrator
proofs. -/
theorem strConcat_chunks (s : String) : strConcat (chunks10 s) = s := by
  unfold chunks10
  rw [chunkListF_concat_fuel]

/-! ## Model backend, utils.py ask_ollama_stream lines 42-63 -/

/-- One line of the streamed HTTP body: a decodable json chunk with its
done flag and message content, or an undecodable line which the reader
logs and skips. -/
inductive OllamaEvent where
  | chunk (done : Bool) (content : String)
  | badLine

/-- One model-backend request as the transport resolves it: a connection
failure raising before any line is read, or a response with an HTTP
status, a list of body lines, and whether an exception interrupts the
stream after those lines. -/
inductive OllamaOutcome where
  | connectError
  | resp (status : Nat) (events : List OllamaEvent) (interrupted : Bool)

def eventContents : List OllamaEvent → List String
  | [] => []
  | OllamaEvent.chunk false c :: rest => c :: eventContents rest
  | _ :: rest => eventContents rest

def apiErrText : String := "⚠️ API 回應錯誤"

def unknownErrText : String := "⚠️ 發生未知錯誤"

/-- utils.py ask_ollama_stream: a non-200 status yields the api error
fragment and returns; a 200 response yields the content of every decoded
chunk whose done flag is false; any exception (at connect time or midway
through the stream) yields the unknown error fragment after whatever was
already yielded. -/
def ask_ollama_stream : OllamaOutcome → List String
  | OllamaOutcome.connectError => [unknownErrText]
  | OllamaOutcome.resp status events interrupted =>
    if status = 200 then
      eventContents events ++ (if interrupted then [unknownErrText] else [])
    else [apiErrText]

/-- utils.py ask_ollama_once: drain the stream into one string. -/
def ask_ollama_once (o : OllamaOutcome) : String := strConcat (ask_ollama_stream o)

/-! ## The chat orchestrator, handlers.py chat lines 20-143 -/

/-- handlers.py line 139: the fixed fallback apology replacing an empty
final reply. -/
def FALLBACK_REPLY : String := "（我好像有點不知道該說什麼了...）"

/-- The plain-answer cleaning of text_generator and filter_stream: strip
think blocks, then strip surrounding whitespace. -/
def cleanText (s : String) : String := pyStrip (stripThink s)

/-- The empty-reply replacement applied before showing or storing. -/
def emptyFix (s : String) : String := if s = "" then FALLBACK_REPLY else s

/-- handlers.py lines 44-48: a parsed list becomes the batch, a parsed
dict becomes a singleton batch, anything else leaves the batch empty. -/
def toolCallsOf : JsonVal → List JsonVal
  | JsonVal.arr l => l
  | JsonVal.obj kvs => [JsonVal.obj kvs]
  | _ => []

/-- handlers.py line 54: the batch is non-empty and every call is a dict
containing the tool-name key. -/
def validBatch (l : List JsonVal) : Bool := !l.isEmpty && l.all hasToolName

/-- handlers.py lines 39-49: extract a json string from the decision text
and parse it with ast.literal_eval; any failure is caught and leaves the
batch empty. -/
def chatToolCalls (decisionText : String) : List JsonVal :=
  match extract_json_from_text decisionText with
  | none => []
  | some s =>
    match ast_literal_eval s with
    | none => []
    | some v => toolCallsOf v

/-- Observable outcome of one orchestrated chat turn: the validated batch,
the dispatched calls, how many grounding (second, streaming) model calls
were issued, and the final reply that is shown and stored. -/
structure ChatOut where
  toolCalls : List JsonVal
  dispatched : List JsonVal
  groundingCalls : Nat
  finalReply : String

/-- handlers.py chat, with the two model-call texts supplied by the
environment: decisionText is the full first (non-streaming) response and
groundingText the full second (streaming) response, whose filtered
re-chunked stream feeds the presenter.  On a valid batch the tools are
dispatched and one grounding call is made; otherwise the decision text
itself is cleaned, re-chunked and presented with no grounding call.  The
final reply is replaced by the fallback string when empty, then stored
into history via chatHistUpdate. -/
def chat (env : TransportEnv) (decisionText groundingText : String) : ChatOut :=
  if validBatch (chatToolCalls decisionText) then
    ⟨chatToolCalls decisionText, dispatch (chatToolCalls decisionText), 1,
      emptyFix ((stream_and_edit_message env (chunks10 (cleanText groundingText))).returned)⟩
  else
    ⟨chatToolCalls decisionText, [], 0,
      emptyFix ((stream_and_edit_message env (chunks10 (cleanText decisionText))).returned)⟩

/-- A transport whose edits always succeed, with an arbitrary throttle. -/
def okTransport (gates : Nat → Bool) : TransportEnv := ⟨gates, fun _ => EditRes.ok, true⟩

theorem okTransport_edits_ok (gates : Nat → Bool) :
    ∀ n, (okTransport gates).edits n ≠ EditRes.failed :=
  fun _ h => EditRes.noConfusion h

theorem emptyFix_len (s : String) : 0 < (emptyFix s).data.length := by
  unfold emptyFix
  by_cases h : s = ""
  · rw [if_pos h]
    decide
  · rw [if_neg h]
    cases s with
    | mk d =>
      cases d with
      | nil => exact absurd rfl h
      | cons c cs => simp

/-- C6 (amended): in the chat handler every final reply that is shown and
stored is non-empty, because an empty assembled reply is replaced by the
fixed fallback string before the history append; the image/sticker
handler, by contrast, performs no such replacement (see the
counterexample). -/
theorem nonempty_final_reply (env : TransportEnv) (dec g : String) :
    0 < (chat env dec g).finalReply.data.length := by
  unfold chat
  by_cases h : validBatch (chatToolCalls dec) = true
  · rw [if_pos h]
    exact emptyFix_len _
  · rw [if_neg h]
    exact emptyFix_len _

/-- photo_or_sticker_handler's reply cleaning, handlers.py line 170. -/
def photoCleanReply (reply : String) : String := pyStrip (stripThinkSp reply)

/-- photo_or_sticker_handler's history appends, handlers.py lines 172-173:
the user placeholder then the cleaned reply, with no empty-replacement. -/
def photoHistoryAppend (hist : List Entry) (reply : String) (isSticker : Bool) : List Entry :=
  dequeAppend MAX_ROUNDS
    (dequeAppend MAX_ROUNDS hist
      ("user", if isSticker then "(傳送了一張貼圖)" else "(傳送了一張照片)"))
    ("assistant", photoCleanReply reply)

/-- C6 counterexample: a vision reply consisting solely of a think block
is cleaned to the empty string and stored as-is by the image path, so the
history does contain an assistant turn with empty content there; the
fixed-fallback replacement exists only in the chat handler. -/
theorem nonempty_final_reply_counterexample :
    photoHistoryAppend [] "<think>a</think>" false =
      [("user", "(傳送了一張照片)"), ("assistant", "")] := by decide

/-- C5 (amended): when the recovered fragments parse but fail validation
(the batch is empty or some fragment is not a dict containing the
tool-name key), the orchestrator dispatches no tools, issues zero
grounding calls, and answers with the original decision text after
think-marker stripping and surrounding-whitespace trimming (with the
fixed fallback string substituted when that is empty). -/
theorem fallback_on_invalid_batch (gates : Nat → Bool) (dec g s : String) (v : JsonVal)
    (h1 : extract_json_from_text dec = some s)
    (h2 : ast_literal_eval s = some v)
    (h3 : validBatch (toolCallsOf v) = false) :
    (chat (okTransport gates) dec g).dispatched = [] ∧
    (chat (okTransport gates) dec g).groundingCalls = 0 ∧
    (chat (okTransport gates) dec g).finalReply = emptyFix (cleanText dec) := by
  have htc : chatToolCalls dec = toolCallsOf v := by
    unfold chatToolCalls
    rw [h1]
    show (match ast_literal_eval s with
      | none => []
      | some v => toolCallsOf v) = toolCallsOf v
    rw [h2]
  have hni : ¬(validBatch (chatToolCalls dec) = true) := by
    rw [htc, h3]
    decide
  unfold chat
  rw [if_neg hni]
  refine ⟨rfl, rfl, ?_⟩
  show emptyFix ((stream_and_edit_message (okTransport gates)
      (chunks10 (cleanText dec))).returned) = emptyFix (cleanText dec)
  rw [presenter_ok_returns (okTransport gates) rfl (okTransport_edits_ok gates) _,
    strConcat_chunks]

def c5Text : String := " \x7b\"a\": 1\x7d "

/-- C5 counterexample: on a decision text with surrounding whitespace
whose single fragment lacks the tool-name key, the final answer is not
the think-stripped original text verbatim: the handler also trims the
surrounding whitespace. -/
theorem fallback_on_invalid_batch_counterexample :
    extract_json_from_text c5Text = some "\x7b\"a\": 1\x7d" ∧
    ast_literal_eval "\x7b\"a\": 1\x7d" = some (JsonVal.obj [("a", JsonVal.num "1")]) ∧
    validBatch (toolCallsOf (JsonVal.obj [("a", JsonVal.num "1")])) = false ∧
    stripThink c5Text = c5Text ∧
    ((chat (okTransport (fun _ => false)) c5Text "").finalReply == stripThink c5Text) = false ∧
    (chat (okTransport (fun _ => false)) c5Text "").finalReply = "\x7b\"a\": 1\x7d" := by
  refine ⟨by decide, rfl, by decide, by decide, by decide, by decide⟩

/-- C5 witness: the amended fallback behavior evaluated at the concrete
decision text of the counterexample. -/
theorem fallback_on_invalid_batch_witness :
    (chat (okTransport (fun _ => false)) c5Text "").dispatched = [] ∧
    (chat (okTransport (fun _ => false)) c5Text "").groundingCalls = 0 ∧
    (chat (okTransport (fun _ => false)) c5Text "").finalReply = emptyFix (cleanText c5Text) :=
  fallback_on_invalid_batch (fun _ => false) c5Text "" "\x7b\"a\": 1\x7d"
    (JsonVal.obj [("a", JsonVal.num "1")]) (by decide) rfl (by decide)

/-- C10: when the extractor recovers a string on which ast.literal_eval
fails (for instance valid JSON containing true, false or null), the
handler catches the failure internally, leaves the batch empty, dispatches
no tools, issues no grounding call, and treats the original decision text
as a plain answer; the failure never reaches the caller (the embedding is
total). -/
theorem literal_eval_failure_fallback (gates : Nat → Bool) (dec g s : String)
    (h1 : extract_json_from_text dec = some s)
    (h2 : (ast_literal_eval s).isNone = true) :
    (chat (okTransport gates) dec g).toolCalls = [] ∧
    (chat (okTransport gates) dec g).dispatched = [] ∧
    (chat (okTransport gates) dec g).groundingCalls = 0 ∧
    (chat (okTransport gates) dec g).finalReply = emptyFix (cleanText dec) := by
  have htc : chatToolCalls dec = [] := by
    unfold chatToolCalls
    rw [h1]
    show (match ast_literal_eval s with
      | none => []
      | some v => toolCallsOf v) = []
    cases hly : ast_literal_eval s with
    | none => rfl
    | some v => rw [hly] at h2; simp at h2
  have hni : ¬(validBatch (chatToolCalls dec) = true) := by
    rw [htc]
    decide
  unfold chat
  rw [if_neg hni]
  refine ⟨htc, rfl, rfl, ?_⟩
  show emptyFix ((stream_and_edit_message (okTransport gates)
      (chunks10 (cleanText dec))).returned) = emptyFix (cleanText dec)
  rw [presenter_ok_returns (okTransport gates) rfl (okTransport_edits_ok gates) _,
    strConcat_chunks]

def c10Text : String := "\x7b\"a\": true\x7d"

/-- C10 witness: a fragment that is valid JSON but no Python literal (it
contains true) falls back to the plain-answer path. -/
theorem literal_eval_failure_fallback_witness :
    (chat (okTransport (fun _ => false)) c10Text "").toolCalls = [] ∧
    (chat (okTransport (fun _ => false)) c10Text "").dispatched = [] ∧
    (chat (okTransport (fun _ => false)) c10Text "").groundingCalls = 0 ∧
    (chat (okTransport (fun _ => false)) c10Text "").finalReply = emptyFix (cleanText c10Text) :=
  literal_eval_failure_fallback (fun _ => false) c10Text "" c10Text (by decide) (by decide)

/-- C7 (amended): a non-success HTTP status yields exactly the api error
fragment (the stream is never read), and a connect-time network failure
yields exactly the unknown error fragment; in those cases the turn
completes with that fragment as the answer and issues no grounding call.
A network failure that interrupts an already-started stream appends the
fragment after the content already yielded, so the answer then merely ends
with the fragment (see the counterexample).  Nothing is raised: the
completion function is total. -/
theorem backend_error_inband (status : Nat) (events : List OllamaEvent) (intr : Bool)
    (g : String) (h : status ≠ 200) :
    ask_ollama_stream (OllamaOutcome.resp status events intr) = [apiErrText] ∧
    ask_ollama_once (OllamaOutcome.resp status events intr) = apiErrText ∧
    (chat (okTransport (fun _ => false))
      (ask_ollama_once (OllamaOutcome.resp status events intr)) g).finalReply = apiErrText ∧
    (chat (okTransport (fun _ => false))
      (ask_ollama_once (OllamaOutcome.resp status events intr)) g).groundingCalls = 0 ∧
    ask_ollama_once OllamaOutcome.connectError = unknownErrText ∧
    (chat (okTransport (fun _ => false))
      (ask_ollama_once OllamaOutcome.connectError) g).finalReply = unknownErrText ∧
    (chat (okTransport (fun _ => false))
      (ask_ollama_once OllamaOutcome.connectError) g).groundingCalls = 0 ∧
    ask_ollama_stream (OllamaOutcome.resp 200 events true) =
      eventContents events ++ [unknownErrText] := by
  have hstream : ask_ollama_stream (OllamaOutcome.resp status events intr) = [apiErrText] := by
    show (if status = 200 then
        eventContents events ++ (if intr = true then [unknownErrText] else [])
      else [apiErrText]) = [apiErrText]
    rw [if_neg h]
  have honce : ask_ollama_once (OllamaOutcome.resp status events intr) = apiErrText := by
    unfold ask_ollama_once
    rw [hstream, strConcat_singleton]
  refine ⟨hstream, honce, ?_, ?_, rfl, rfl, rfl, ?_⟩
  · rw [honce]
    rfl
  · rw [honce]
    rfl
  · show (if (200 : Nat) = 200 then
        eventContents events ++ (if true = true then [unknownErrText] else [])
      else [apiErrText]) = eventContents events ++ [unknownErrText]
    rw [if_pos rfl, if_pos rfl]

def midFailOutcome : OllamaOutcome :=
  OllamaOutcome.resp 200 [OllamaEvent.chunk false "hi"] true

/-- C7 counterexample: a network failure interrupting the stream after one
content chunk yields the error fragment appended to that content, so the
turn's answer is not the fragment itself. -/
theorem backend_error_inband_counterexample :
    ask_ollama_stream midFailOutcome = ["hi", unknownErrText] ∧
    ask_ollama_once midFailOutcome = "hi" ++ unknownErrText ∧
    ((chat (okTransport (fun _ => false)) (ask_ollama_once midFailOutcome) "").finalReply
      == unknownErrText) = false ∧
    (chat (okTransport (fun _ => false)) (ask_ollama_once midFailOutcome) "").finalReply
      = "hi" ++ unknownErrText := by
  refine ⟨rfl, rfl, by decide, by decide⟩

/-- C7 witness: a concrete 500 response surfaces the api error fragment as
the whole answer. -/
theorem backend_error_inband_witness :
    ask_ollama_once (OllamaOutcome.resp 500 [] false) = apiErrText ∧
    (chat (okTransport (fun _ => false))
      (ask_ollama_once (OllamaOutcome.resp 500 [] false)) "").finalReply = apiErrText :=
  ⟨(backend_error_inband 500 [] false "" (by decide)).2.1,
    (backend_error_inband 500 [] false "" (by decide)).2.2.1⟩

/-! ## News tool deduplication, tools.py get_news_headlines lines 60-86 -/

/-- An article as returned by the news API and as trimmed for the caller:
only these three fields are used. -/
structure NewsArticle where
  title : Option String
  description : Option String
  url : Option String

/-- The result of one news call: an in-band message string, or the list
of fresh articles. -/
inductive NewsReturn where
  | message (s : String)
  | payload (articles : List NewsArticle)

/-- tools.py lines 71-76: keep each article whose url is present,
non-empty and unseen, adding the url to the seen set as the loop goes (so
duplicates inside one batch are also collapsed). -/
def newsDedupLoop : List NewsArticle → List String → List NewsArticle × List String
  | [], seen => ([], seen)
  | a :: rest, seen =>
    match a.url with
    | some u =>
      if u ≠ "" ∧ u ∉ seen then
        ((a :: (newsDedupLoop rest (u :: seen)).1), (newsDedupLoop rest (u :: seen)).2)
      else newsDedupLoop rest seen
    | none => newsDedupLoop rest seen

/-- tools.py get_news_headlines with the API response and the per-user
seen set made explicit (the API key is assumed configured and the
network call to have succeeded; failures return in-band message strings
that carry no urls, like the two message branches here). -/
def get_news_headlines (query : String) (apiArticles : List NewsArticle)
    (seen : List String) : NewsReturn × List String :=
  if apiArticles.isEmpty then
    (NewsReturn.message ("找不到關於「" ++ query ++ "」的新聞。"), seen)
  else if (newsDedupLoop apiArticles seen).1.isEmpty then
    (NewsReturn.message "抱歉，目前沒有更多關於這個主題的新聞了耶～",
      (newsDedupLoop apiArticles seen).2)
  else
    (NewsReturn.payload (newsDedupLoop apiArticles seen).1,
      (newsDedupLoop apiArticles seen).2)

/-- The urls contained in the articles returned to the caller. -/
def retUrls : NewsReturn → List String
  | NewsReturn.payload l => l.filterMap (fun a => a.url)
  | _ => []

theorem newsDedupLoop_spec :
    ∀ (arts : List NewsArticle) (seen : List String),
      (∀ u ∈ seen, u ∈ (newsDedupLoop arts seen).2) ∧
      (∀ b ∈ (newsDedupLoop arts seen).1,
        ∃ u, b.url = some u ∧ u ∉ seen ∧ u ∈ (newsDedupLoop arts seen).2) := by
  intro arts
  induction arts with
  | nil =>
    intro seen
    exact ⟨fun u hu => hu, fun b hb => absurd hb (List.not_mem_nil _)⟩
  | cons a rest ih =>
    intro seen
    cases hu : a.url with
    | none =>
      simp only [newsDedupLoop, hu]
      exact ih seen
    | some u =>
      simp only [newsDedupLoop, hu]
      by_cases hc : u ≠ "" ∧ u ∉ seen
      · rw [if_pos hc]
        obtain ⟨ihs, ihm⟩ := ih (u :: seen)
        constructor
        · intro w hw
          exact ihs w (List.mem_cons_of_mem _ hw)
        · intro b hb
          rcases List.mem_cons.mp hb with hb | hb
          · subst hb
            exact ⟨u, hu, hc.2, ihs u (List.mem_cons_self _ _)⟩
          · obtain ⟨w, hw1, hw2, hw3⟩ := ihm b hb
            exact ⟨w, hw1, fun hws => hw2 (List.mem_cons_of_mem _ hws), hw3⟩
      · rw [if_neg hc]
        exact ih seen

theorem news_seen_mono (q : String) (arts : List NewsArticle) (seen : List String) :
    ∀ u ∈ seen, u ∈ (get_news_headlines q arts seen).2 := by
  intro u hu
  unfold get_news_headlines
  by_cases he : arts.isEmpty = true
  · rw [if_pos he]
    exact hu
  · rw [if_neg he]
    by_cases hn : (newsDedupLoop arts seen).1.isEmpty = true
    · rw [if_pos hn]
      exact (newsDedupLoop_spec arts seen).1 u hu
    · rw [if_neg hn]
      exact (newsDedupLoop_spec arts seen).1 u hu

theorem news_ret_spec (q : String) (arts : List NewsArticle) (seen : List String) :
    ∀ u ∈ retUrls (get_news_headlines q arts seen).1,
      u ∈ (get_news_headlines q arts seen).2 ∧ u ∉ seen := by
  intro u hu
  unfold get_news_headlines at hu ⊢
  by_cases he : arts.isEmpty = true
  · rw [if_pos he] at hu
    exact absurd hu (List.not_mem_nil _)
  · rw [if_neg he] at hu ⊢
    by_cases hn : (newsDedupLoop arts seen).1.isEmpty = true
    · rw [if_pos hn] at hu
      exact absurd hu (List.not_mem_nil _)
    · rw [if_neg hn] at hu ⊢
      have hu2 : u ∈ (newsDedupLoop arts seen).1.filterMap (fun a => a.url) := hu
      rw [List.mem_filterMap] at hu2
      obtain ⟨b, hb, hbu⟩ := hu2
      obtain ⟨w, hw1, hw2, hw3⟩ := (newsDedupLoop_spec arts seen).2 b hb
      rw [hw1] at hbu
      injection hbu with hbu
      subst hbu
      exact ⟨hw3, hw2⟩

/-- C9: across two successive news calls of a session, every url returned
by a call is recorded in the seen set, the seen set only ever grows, and
the urls returned by the second call are disjoint from those returned by
the first, whatever overlap the underlying API responses have. -/
theorem news_dedup (q1 q2 : String) (a1 a2 : List NewsArticle) (seen0 : List String) :
    (∀ u ∈ retUrls (get_news_headlines q1 a1 seen0).1,
      u ∈ (get_news_headlines q1 a1 seen0).2) ∧
    (∀ u ∈ seen0, u ∈ (get_news_headlines q1 a1 seen0).2) ∧
    (∀ u ∈ (get_news_headlines q1 a1 seen0).2,
      u ∈ (get_news_headlines q2 a2 (get_news_headlines q1 a1 seen0).2).2) ∧
    (∀ u ∈ retUrls (get_news_headlines q2 a2 (get_news_headlines q1 a1 seen0).2).1,
      u ∉ retUrls (get_news_headlines q1 a1 seen0).1) := by
  refine ⟨?_, news_seen_mono q1 a1 seen0, news_seen_mono q2 a2 _, ?_⟩
  · intro u hu
    exact (news_ret_spec q1 a1 seen0 u hu).1
  · intro u hu hmem
    have h1 := (news_ret_spec q1 a1 seen0 u hmem).1
    exact (news_ret_spec q2 a2 _ u hu).2 h1

def newsArt (u : String) : NewsArticle := ⟨some "t", some "d", some u⟩

/-- C9 witness: two calls with overlapping API responses; the overlap url
is returned only by the first call. -/
theorem news_dedup_witness :
    retUrls (get_news_headlines "q" [newsArt "u1", newsArt "u2"] []).1 = ["u1", "u2"] ∧
    retUrls (get_news_headlines "q" [newsArt "u2", newsArt "u3"]
      (get_news_headlines "q" [newsArt "u1", newsArt "u2"] []).2).1 = ["u3"] ∧
    "u3" ∉ retUrls (get_news_headlines "q" [newsArt "u1", newsArt "u2"] []).1 := by
  refine ⟨by decide, by decide, ?_⟩
  exact (news_dedup "q" "q" [newsArt "u1", newsArt "u2"] [newsArt "u2", newsArt "u3"] []).2.2.2
    "u3" (by decide)

end TgAgent
